import Mathlib

/-!
Shallow embedding of the session core of `photoswipe_cleaner.py`
(class `PhotoSwipeCleaner` plus the helpers `unique_name` and
`scan_images_recursive`), together with theorems settling the frozen
claims about that code.

Modelling conventions:
* The filesystem is a list of absolute file paths (`fs : List String`);
  a file exists iff its path is a member.  `shutil.move` / `os.rename`
  is modelled by `fsMove`, which takes a boolean oracle `ok` injecting
  external failures (permissions, cross-device errors); a move also
  fails when the source does not exist.  On success the source path is
  removed and the destination path added.
* `QPixmap` loading by the rendering collaborator is modelled by an
  oracle `pix : String → Bool` (`false` = the image is unreadable and
  gets dropped by `show_current`).
* `random.shuffle` is an oracle `shuffle : List String → List String`.
* The modal "finished" dialog of `on_finished_list` is external UI; in
  the model `show_current` records `finishedDialogShown` and stops, the
  dialog's consequences being separate calls driven by the user.
* Python `int` indices are modelled as `Int`; Python strings as `String`
  manipulated through their `data` character lists.
-/

namespace PSC

/-- The allow-list of image extensions, `IMG_EXT` in the source. -/
def IMG_EXT : List String :=
  [".jpg", ".jpeg", ".png", ".gif", ".bmp", ".tiff", ".webp", ".heic", ".heif"]

/-- Name of the hidden staging directory, `BACKUP_DIRNAME` in the source. -/
def BACKUP_DIRNAME : String := ".pswipe_last_backup"

/-- Little-endian decimal digit characters of `n` (fuel-driven). -/
def natStrGo : Nat → Nat → List Char
  | 0, _ => []
  | fuel+1, n => if n = 0 then [] else Nat.digitChar (n % 10) :: natStrGo fuel (n / 10)

/-- Decimal rendering of a natural number, as Python `str`/f-strings produce. -/
def natStr (n : Nat) : String :=
  if n = 0 then "0" else String.mk (natStrGo n n).reverse

/-- Numeric value of a digit character. -/
def digitVal (c : Char) : Nat := c.toNat - '0'.toNat

/-- Value of a little-endian digit-character list. -/
def valLE : List Char → Nat
  | [] => 0
  | c :: cs => digitVal c + 10 * valLE cs

/-- Python `os.path.splitext` restricted to bare file names (no slash in
the argument matters here): split at the last dot, except when every
character before that dot is itself a dot (hidden-file rule). -/
def splitext (s : String) : String × String :=
  let l := s.data
  let revSuffix := l.reverse.takeWhile (fun c => c != '.')
  if revSuffix.length = l.length then (s, "")
  else
    let dotIdx := l.length - 1 - revSuffix.length
    if (l.take dotIdx).any (fun c => c != '.') then
      (String.mk (l.take dotIdx), String.mk (l.drop dotIdx))
    else (s, "")

/-- Python `pathlib.Path(p).name`: the part after the last slash. -/
def basename (s : String) : String :=
  String.mk ((s.data.reverse.takeWhile (fun c => c != '/')).reverse)

/-- Python `pathlib.Path(p).parent` rendered as a string: the part
before the last slash. -/
def parentDir (s : String) : String :=
  String.mk (((s.data.reverse.dropWhile (fun c => c != '/')).drop 1).reverse)

/-- Python `str(Path(p).relative_to(root))` for `p` lying under `root`:
drop the root and the separating slash. -/
def stripRoot (root p : String) : String :=
  String.mk (p.data.drop (root.data.length + 1))

/-- Python `str.lower`, character-wise (extensions are ASCII). -/
def strLower (s : String) : String := String.mk (s.data.map Char.toLower)

/-- The `i`-th collision candidate built by `unique_name` in the source:
`target_dir / f"{stem}__pswipe_{i}{suf}"`. -/
def candName (dir stem suf : String) (i : Nat) : String :=
  dir ++ "/" ++ stem ++ "__pswipe_" ++ natStr i ++ suf

/-- The candidate shape described by the specification text for the
disambiguating suffix, literally `name__n.ext` (note: no `pswipe`
marker).  Used to compare the code's naming against the spec's words. -/
def specCandName (dir stem suf : String) (n : Nat) : String :=
  dir ++ "/" ++ stem ++ "__" ++ natStr n ++ suf

/-- The `while True` loop of `unique_name`, trying `i`, `i+1`, ... until a
candidate is absent from the filesystem.  `fuel` bounds the search; the
callers pass `fs.length + 1`, which `unique_name_go_free` below shows is
always enough for the loop to exit exactly as the unbounded one would. -/
def unique_name_go (fs : List String) (dir stem suf : String) : Nat → Nat → String
  | 0, i => candName dir stem suf i
  | fuel+1, i =>
    if candName dir stem suf i ∈ fs then unique_name_go fs dir stem suf fuel (i + 1)
    else candName dir stem suf i

/-- `unique_name(target_dir, base_name)` from the source: return
`target_dir / base_name` if free, otherwise try
`{stem}__pswipe_{i}{suf}` for `i = 1, 2, ...` until a free name appears.
`fs` is the set of existing paths consulted by `Path.exists`. -/
def unique_name (fs : List String) (target_dir base_name : String) : String :=
  if target_dir ++ "/" ++ base_name ∈ fs then
    unique_name_go fs target_dir (splitext base_name).1 (splitext base_name).2
      (fs.length + 1) 1
  else target_dir ++ "/" ++ base_name

/-- `scan_images_recursive(root)` from the source: every existing file
under `root`, excluding the staging directory, whose lower-cased
extension is in `IMG_EXT`, reported relative to `root`. -/
def scan_images_recursive (fs : List String) (root : String) : List String :=
  (fs.filter (fun p =>
      (root ++ "/").data.isPrefixOf p.data &&
      !((root ++ "/" ++ BACKUP_DIRNAME ++ "/").data.isPrefixOf p.data) &&
      IMG_EXT.contains (strLower (splitext (basename p)).2))).map
    (fun p => stripRoot root p)

/-- The `self.last_action` record: `{'type': 'keep', 'prev_index': i}` or
`{'type': 'delete', 'orig_rel': rel, 'backup_path': bp}`. -/
inductive LastAction where
  | keep (prev_index : Int)
  | delete (orig_rel : String) (backup_path : String)
deriving DecidableEq

/-- The session-relevant fields of the `PhotoSwipeCleaner` window plus
the modelled filesystem. -/
structure AppState where
  folder : Option String
  files_order : List String
  index : Int
  last_action : Option LastAction
  finishedDialogShown : Bool
  fs : List String
deriving DecidableEq

/-- What an operation reports to the user (status-bar text, message box,
or normal completion). -/
inductive Outcome where
  | ok
  | noCurrent
  | stagingFailed
  | nothingToUndo
  | nothingToRestore
  | restoreFailed
deriving DecidableEq

/-- `shutil.move`: fails when the external oracle says so or when the
source file does not exist; on success the file changes path. -/
def fsMove (ok : Bool) (fs : List String) (src dst : String) : Option (List String) :=
  if ok ∧ src ∈ fs then some (dst :: fs.erase src) else none

/-- `_commit_pending_delete`: if the pending action is a delete, unlink
its staged backup file (missing file tolerated); clear the action. -/
def commit_pending_delete (s : AppState) : AppState :=
  match s.last_action with
  | none => s
  | some (LastAction.keep _) => { s with last_action := none }
  | some (LastAction.delete _ bp) =>
    if bp = "" then { s with last_action := none }
    else { s with last_action := none, fs := s.fs.erase bp }

/-- `current_path`: `folder / files_order[index]` when a folder is loaded,
the order is non-empty, and `0 <= index < len(files_order)`; `None`
otherwise. -/
def current_path (s : AppState) : Option String :=
  match s.folder with
  | none => none
  | some root =>
    if s.files_order = [] then none
    else if 0 ≤ s.index ∧ s.index < (s.files_order.length : Int) then
      some (root ++ "/" ++ s.files_order.getD s.index.toNat "")
    else none

/-- The body of `show_current`: while the current image fails to load,
pop it from `files_order` (index clamped to the new length) and retry;
when the list is exhausted, record that the finished dialog fires.  The
callers pass `files_order.length + 1` as fuel, which dominates the
number of pops the Python loop can perform. -/
def show_current_go (pix : String → Bool) : Nat → AppState → AppState
  | 0, s => s
  | fuel+1, s =>
    match current_path s with
    | none => if s.finishedDialogShown then s else { s with finishedDialogShown := true }
    | some p =>
      if pix p then s
      else
        let order2 := s.files_order.eraseIdx s.index.toNat
        let idx2 : Int :=
          if (order2.length : Int) ≤ s.index then (order2.length : Int) else s.index
        show_current_go pix fuel { s with files_order := order2, index := idx2 }

/-- `show_current` with its implicit termination bound made explicit. -/
def show_current (pix : String → Bool) (s : AppState) : AppState :=
  show_current_go pix (s.files_order.length + 1) s

/-- `_advance(step)`: shift the index, clamp into `[0, len]`, redisplay. -/
def advance (pix : String → Bool) (step : Int) (s0 : AppState) : AppState :=
  let s1 : AppState := { s0 with index := s0.index + step }
  let s2 : AppState :=
    if (s1.files_order.length : Int) ≤ s1.index then
      { s1 with index := (s1.files_order.length : Int) }
    else if s1.index < 0 then { s1 with index := 0 }
    else s1
  show_current pix s2

/-- `request_keep`: commit any pending action, bail out without a current
entry, otherwise record `Keep{prev_index}` and advance by one. -/
def request_keep (pix : String → Bool) (s0 : AppState) : AppState × Outcome :=
  let s1 := commit_pending_delete s0
  match current_path s1 with
  | none => (s1, Outcome.noCurrent)
  | some _ =>
    (advance pix 1 { s1 with last_action := some (LastAction.keep s1.index) }, Outcome.ok)

/-- `request_delete`: commit any pending action; with a current entry,
stage its file under a collision-free name inside the backup directory.
On a successful move, remove the entry from `files_order`, record the
delete action, clamp the index and redisplay; on failure report the
error with the in-memory list untouched. -/
def request_delete (pix : String → Bool) (moveOk : Bool) (s0 : AppState) :
    AppState × Outcome :=
  let s1 := commit_pending_delete s0
  match current_path s1 with
  | none => (s1, Outcome.noCurrent)
  | some p =>
    let rel := s1.files_order.getD s1.index.toNat ""
    let root := s1.folder.getD ""
    let backup_target := unique_name s1.fs (root ++ "/" ++ BACKUP_DIRNAME) (basename rel)
    match fsMove moveOk s1.fs p backup_target with
    | none => (s1, Outcome.stagingFailed)
    | some fs2 =>
      let order2 := s1.files_order.eraseIdx s1.index.toNat
      let idx2 : Int :=
        if (order2.length : Int) ≤ s1.index then (order2.length : Int) else s1.index
      (show_current pix
        { s1 with fs := fs2, files_order := order2, index := idx2,
                  last_action := some (LastAction.delete rel backup_target) },
       Outcome.ok)

/-- `undo_last`: nothing pending is a status message; otherwise the
pending record is cleared first.  Undoing a keep steps the index back
(never below 0).  Undoing a delete restores the staged file to its
original path (disambiguated on collision) and re-inserts the relative
path at `max(min(index, len), 0)`; a failed restore reports an error. -/
def undo_last (pix : String → Bool) (moveOk : Bool) (s0 : AppState) :
    AppState × Outcome :=
  match s0.last_action with
  | none => (s0, Outcome.nothingToUndo)
  | some (LastAction.keep _) =>
    let s1 : AppState := { s0 with last_action := none }
    let s2 : AppState := if 0 < s1.index then { s1 with index := s1.index - 1 } else s1
    (show_current pix s2, Outcome.ok)
  | some (LastAction.delete orig_rel backup_path) =>
    let s1 : AppState := { s0 with last_action := none }
    if backup_path = "" ∨ backup_path ∉ s1.fs then (s1, Outcome.nothingToRestore)
    else
      let root := s1.folder.getD ""
      let dest0 := root ++ "/" ++ orig_rel
      let dest :=
        if dest0 ∈ s1.fs then unique_name s1.fs (parentDir dest0) (basename dest0)
        else dest0
      match fsMove moveOk s1.fs backup_path dest with
      | none => (s1, Outcome.restoreFailed)
      | some fs2 =>
        let ipos : Int := max (min s1.index (s1.files_order.length : Int)) 0
        (show_current pix
          { s1 with fs := fs2,
                    files_order := s1.files_order.insertIdx ipos.toNat (stripRoot root dest),
                    index := ipos },
         Outcome.ok)

/-- `_clear_backup_dir`: unlink every file lying directly inside the
staging directory (best effort, never fatal). -/
def clear_backup_dir (s : AppState) : AppState :=
  match s.folder with
  | none => s
  | some root =>
    { s with fs := s.fs.filter (fun p => parentDir p != root ++ "/" ++ BACKUP_DIRNAME) }

/-- `load_folder`: point the session at `folder`; an empty scan only
shows a message box and returns.  Otherwise install the shuffled scan,
reset index/pending/dialog flag, clear the staging directory, display. -/
def load_folder (pix : String → Bool) (shuffle : List String → List String)
    (folder : String) (s0 : AppState) : AppState :=
  let s1 : AppState := { s0 with folder := some folder }
  let files := scan_images_recursive s1.fs folder
  if files = [] then s1
  else
    let s2 : AppState :=
      { s1 with files_order := shuffle files, index := 0, last_action := none,
                finishedDialogShown := false }
    show_current pix (clear_backup_dir s2)

/-- The documented session invariant `0 <= cursor <= len(order)`. -/
def Inv (s : AppState) : Prop :=
  0 ≤ s.index ∧ s.index ≤ (s.files_order.length : Int)

/-- Coherence of a pending keep record: whenever a `Keep{priorCursor}` is
pending, the live cursor sits exactly one past the recorded prior cursor
(and that prior cursor is non-negative).  `request_keep` establishes this
(it records `prev_index = cursor` and advances by exactly one) and every
operation preserves it, so it holds in every reachable state. -/
def KeepCoherent (s : AppState) : Prop :=
  ∀ pc, s.last_action = some (LastAction.keep pc) → 0 ≤ pc ∧ s.index = pc + 1

/-- A rendering oracle that loads every image. -/
def pixT : String → Bool := fun _ => true

/-- A quiescent three-file session used as a concrete input. -/
def stA : AppState :=
  { folder := some "root"
    files_order := ["a.jpg", "b.jpg", "c.jpg"]
    index := 0
    last_action := none
    finishedDialogShown := false
    fs := ["root/a.jpg", "root/b.jpg", "root/c.jpg"] }

/-- A session holding a pending delete whose staged file exists. -/
def stPD : AppState :=
  { folder := some "root"
    files_order := ["b.jpg", "c.jpg"]
    index := 0
    last_action := some (LastAction.delete "a.jpg" "root/.pswipe_last_backup/a.jpg")
    finishedDialogShown := false
    fs := ["root/.pswipe_last_backup/a.jpg", "root/b.jpg", "root/c.jpg"] }

/-- A session holding a pending keep whose recorded prior cursor (0) is
far from the live cursor (5). -/
def stPK : AppState :=
  { folder := some "root"
    files_order := ["a.jpg", "b.jpg", "c.jpg", "d.jpg", "e.jpg", "f.jpg"]
    index := 5
    last_action := some (LastAction.keep 0)
    finishedDialogShown := false
    fs := [] }

/-- The state reached from `stA` by one `keep()`: pending `Keep 0` with
the cursor at 1. -/
def stB : AppState :=
  { folder := some "root"
    files_order := ["a.jpg", "b.jpg", "c.jpg"]
    index := 1
    last_action := some (LastAction.keep 0)
    finishedDialogShown := false
    fs := ["root/a.jpg", "root/b.jpg", "root/c.jpg"] }

/-- A session with no folder loaded. -/
def stNone : AppState :=
  { folder := none
    files_order := []
    index := 0
    last_action := none
    finishedDialogShown := false
    fs := [] }

/-- Rebuilding a string from its character data is the identity. -/
theorem string_mk_data (s : String) : String.mk s.data = s := by cases s; rfl

/-- Digit characters decode back to their digit. -/
theorem digitVal_digitChar : ∀ m, m < 10 → digitVal (Nat.digitChar m) = m := by decide

/-- Digits produced along `natStrGo` are bounded, so `valLE` recovers the
number as long as the fuel dominates it. -/
theorem valLE_natStrGo : ∀ fuel n, n ≤ fuel → valLE (natStrGo fuel n) = n := by
  intro fuel
  induction fuel with
  | zero =>
    intro n hn
    interval_cases n
    rfl
  | succ fuel ih =>
    intro n hn
    by_cases h0 : n = 0
    · subst h0; simp [natStrGo, valLE]
    · have hdiv : n / 10 ≤ fuel := by omega
      simp only [natStrGo, h0, if_false, valLE]
      rw [ih _ hdiv, digitVal_digitChar _ (by omega)]
      omega

/-- Decimal rendering is injective on positive numbers. -/
theorem natStr_inj_pos {a b : Nat} (ha : 1 ≤ a) (hb : 1 ≤ b)
    (h : natStr a = natStr b) : a = b := by
  unfold natStr at h
  rw [if_neg (by omega), if_neg (by omega)] at h
  have hdata : (natStrGo a a).reverse = (natStrGo b b).reverse := congrArg String.data h
  have := List.reverse_injective hdata
  have hv : valLE (natStrGo a a) = valLE (natStrGo b b) := by rw [this]
  rwa [valLE_natStrGo a a le_rfl, valLE_natStrGo b b le_rfl] at hv

/-- Collision candidates with distinct positive indices have distinct names. -/
theorem candName_inj {dir stem suf : String} {i j : Nat} (hi : 1 ≤ i) (hj : 1 ≤ j)
    (h : candName dir stem suf i = candName dir stem suf j) : i = j := by
  have hd : (candName dir stem suf i).data = (candName dir stem suf j).data := by rw [h]
  unfold candName at hd
  simp only [String.data_append, List.append_assoc] at hd
  have h1 := List.append_cancel_left hd
  have h2 := List.append_cancel_left h1
  have h3 := List.append_cancel_left h2
  have h4 := List.append_cancel_left h3
  have h5 := List.append_cancel_right h4
  exact natStr_inj_pos hi hj (String.ext h5)

/-- Pigeonhole: among any `fs.length + 1` consecutive candidates at least
one name is absent from the filesystem. -/
theorem exists_free_cand (fs : List String) (dir stem suf : String) (i : Nat)
    (hi : 1 ≤ i) :
    ∃ j, i ≤ j ∧ j < i + (fs.length + 1) ∧ candName dir stem suf j ∉ fs := by
  by_contra hall
  push_neg at hall
  have hsub : (Finset.Ico i (i + (fs.length + 1))).image (candName dir stem suf) ⊆
      fs.toFinset := by
    intro x hx
    rcases Finset.mem_image.mp hx with ⟨j, hj, rfl⟩
    rcases Finset.mem_Ico.mp hj with ⟨hj1, hj2⟩
    exact List.mem_toFinset.mpr (hall j hj1 hj2)
  have hinj : Set.InjOn (candName dir stem suf)
      ↑(Finset.Ico i (i + (fs.length + 1))) := by
    intro a ha b hb hab
    rcases Finset.mem_Ico.mp (Finset.mem_coe.mp ha) with ⟨ha1, _⟩
    rcases Finset.mem_Ico.mp (Finset.mem_coe.mp hb) with ⟨hb1, _⟩
    exact candName_inj (by omega) (by omega) hab
  have hcard := Finset.card_le_card hsub
  rw [Finset.card_image_of_injOn hinj, Nat.card_Ico] at hcard
  have := List.toFinset_card_le fs
  omega

/-- The bounded search returns the least free candidate at or beyond the
start index, provided one lies within the fuel window. -/
theorem unique_name_go_eq (fs : List String) (dir stem suf : String) :
    ∀ (fuel i j : Nat), i ≤ j → j < i + fuel →
      candName dir stem suf j ∉ fs →
      (∀ m, i ≤ m → m < j → candName dir stem suf m ∈ fs) →
      unique_name_go fs dir stem suf fuel i = candName dir stem suf j := by
  intro fuel
  induction fuel with
  | zero => intro i j h1 h2 _ _; omega
  | succ fuel ih =>
    intro i j h1 h2 hj hmin
    by_cases hc : candName dir stem suf i ∈ fs
    · have hij : i < j := by
        rcases Nat.lt_or_ge i j with h | h
        · exact h
        · have : i = j := by omega
          subst this; exact absurd hc hj
      simp only [unique_name_go, if_pos hc]
      exact ih (i + 1) j (by omega) (by omega) hj (fun m hm1 hm2 => hmin m (by omega) hm2)
    · have hij : i = j := by
        by_contra hne
        exact hc (hmin i le_rfl (by omega))
      subst hij
      simp only [unique_name_go, if_neg hc]

/-- On a base-name collision `unique_name` returns the least free
`__pswipe_` candidate. -/
theorem unique_name_collision_eq (fs : List String) (dir base : String)
    (hcol : dir ++ "/" ++ base ∈ fs) :
    ∃ n, 1 ≤ n ∧
      unique_name fs dir base = candName dir (splitext base).1 (splitext base).2 n ∧
      candName dir (splitext base).1 (splitext base).2 n ∉ fs ∧
      (∀ m, 1 ≤ m → m < n → candName dir (splitext base).1 (splitext base).2 m ∈ fs) := by
  have hex : ∃ j, 1 ≤ j ∧ candName dir (splitext base).1 (splitext base).2 j ∉ fs := by
    rcases exists_free_cand fs dir (splitext base).1 (splitext base).2 1 le_rfl with
      ⟨j, hj1, _, hj3⟩
    exact ⟨j, hj1, hj3⟩
  classical
  refine ⟨Nat.find hex, (Nat.find_spec hex).1, ?_, (Nat.find_spec hex).2, ?_⟩
  · unfold unique_name
    rw [if_pos hcol]
    rcases exists_free_cand fs dir (splitext base).1 (splitext base).2 1 le_rfl with
      ⟨j, hj1, hj2, hj3⟩
    have hle : Nat.find hex ≤ j := Nat.find_min' hex ⟨hj1, hj3⟩
    exact unique_name_go_eq fs dir (splitext base).1 (splitext base).2 (fs.length + 1)
      1 (Nat.find hex) (Nat.find_spec hex).1 (by omega) (Nat.find_spec hex).2
      (fun m hm1 hm2 => by
        have := Nat.find_min hex hm2
        simp only [not_and, not_not] at this
        exact this hm1)
  · intro m hm1 hm2
    have := Nat.find_min hex hm2
    simp only [not_and, not_not] at this
    exact this hm1

/-- The name chosen by `unique_name` never collides with an existing file. -/
theorem unique_name_not_mem (fs : List String) (dir base : String) :
    unique_name fs dir base ∉ fs := by
  by_cases hcol : dir ++ "/" ++ base ∈ fs
  · rcases unique_name_collision_eq fs dir base hcol with ⟨n, _, heq, hfree, _⟩
    rw [heq]; exact hfree
  · unfold unique_name
    rw [if_neg hcol]
    exact hcol

/-- Every name `unique_name` can return lies inside the target directory. -/
theorem unique_name_form (fs : List String) (dir base : String) :
    ∃ t, unique_name fs dir base = dir ++ "/" ++ t := by
  by_cases hcol : dir ++ "/" ++ base ∈ fs
  · rcases unique_name_collision_eq fs dir base hcol with ⟨n, _, heq, _, _⟩
    exact ⟨(splitext base).1 ++ "__pswipe_" ++ natStr n ++ (splitext base).2, by
      rw [heq]; unfold candName; simp [String.ext_iff, String.data_append]⟩
  · exact ⟨base, by unfold unique_name; rw [if_neg hcol]⟩

/-- The name chosen by `unique_name` is never the empty string. -/
theorem unique_name_ne_empty (fs : List String) (dir base : String) :
    unique_name fs dir base ≠ "" := by
  rcases unique_name_form fs dir base with ⟨t, ht⟩
  rw [ht]
  intro h
  have : (dir ++ "/" ++ t).data = ("" : String).data := by rw [h]
  simp only [String.data_append] at this
  have := congrArg List.length this
  simp at this

/-- The character data of the slash literal. -/
theorem slash_data : ("/" : String).data = ['/'] := rfl

/-- Stripping the root from a root-joined path recovers the relative part. -/
theorem stripRoot_cancel (r x : String) : stripRoot r (r ++ "/" ++ x) = x := by
  unfold stripRoot
  simp only [String.data_append, slash_data]
  have hlen : r.data.length + 1 = (r.data ++ ['/']).length := by simp
  rw [hlen, List.drop_left, string_mk_data]

/-- Re-inserting the erased element at its old position is the identity. -/
theorem insertIdx_eraseIdx_getD {α : Type} :
    ∀ (l : List α) (i : Nat) (d : α), i < l.length →
      List.insertIdx i (l.getD i d) (l.eraseIdx i) = l := by
  intro l
  induction l with
  | nil => intro i d h; simp at h
  | cons a t ih =>
    intro i d h
    cases i with
    | zero => rfl
    | succ i =>
      simp only [List.length_cons, Nat.succ_lt_succ_iff] at h
      simp only [List.eraseIdx_cons_succ, List.getD_cons_succ, List.insertIdx_succ_cons,
        List.cons.injEq, true_and]
      exact ih i d h

/-- `_commit_pending_delete` touches only `last_action` and `fs`. -/
theorem commit_fields (s : AppState) :
    (commit_pending_delete s).files_order = s.files_order ∧
    (commit_pending_delete s).index = s.index ∧
    (commit_pending_delete s).folder = s.folder ∧
    (commit_pending_delete s).last_action = none := by
  unfold commit_pending_delete
  rcases hla : s.last_action with _ | a
  · exact ⟨rfl, rfl, rfl, hla⟩
  · cases a with
    | keep i => exact ⟨rfl, rfl, rfl, rfl⟩
    | delete rel bp =>
      dsimp only
      split_ifs <;> exact ⟨rfl, rfl, rfl, rfl⟩

/-- Committing a pending delete with a real backup path unlinks it. -/
theorem commit_fs_of_delete (s : AppState) (rel bp : String)
    (hla : s.last_action = some (LastAction.delete rel bp)) (hbp : bp ≠ "") :
    (commit_pending_delete s).fs = s.fs.erase bp := by
  unfold commit_pending_delete
  rw [hla]
  simp [hbp]

/-- Committing preserves well-formedness of the filesystem listing. -/
theorem commit_nodup (s : AppState) (h : s.fs.Nodup) :
    (commit_pending_delete s).fs.Nodup := by
  unfold commit_pending_delete
  rcases s.last_action with _ | a
  · exact h
  · cases a with
    | keep i => exact h
    | delete rel bp =>
      dsimp only
      split_ifs
      · exact h
      · exact h.erase bp

/-- `current_path` on a loaded folder and an in-range index. -/
theorem current_path_eq (s : AppState) (r : String) (hf : s.folder = some r)
    (h0 : 0 ≤ s.index) (h1 : s.index < (s.files_order.length : Int)) :
    current_path s = some (r ++ "/" ++ s.files_order.getD s.index.toNat "") := by
  unfold current_path
  rw [hf]
  dsimp only
  have hne : s.files_order ≠ [] := by
    apply List.ne_nil_of_length_pos
    omega
  rw [if_neg hne, if_pos ⟨h0, h1⟩]

/-- Inversion: a current path certifies folder and index bounds. -/
theorem current_path_inv {s : AppState} {p : String} (h : current_path s = some p) :
    ∃ r, s.folder = some r ∧ 0 ≤ s.index ∧ s.index < (s.files_order.length : Int) ∧
      p = r ++ "/" ++ s.files_order.getD s.index.toNat "" := by
  rcases hf : s.folder with _ | r
  · unfold current_path at h
    rw [hf] at h
    dsimp only at h
    cases h
  · unfold current_path at h
    rw [hf] at h
    dsimp only at h
    split_ifs at h with h1 h2
    refine ⟨r, rfl, h2.1, h2.2, ?_⟩
    injection h with h
    exact h.symm

/-- `current_path` with no folder loaded. -/
theorem current_path_no_folder {s : AppState} (hf : s.folder = none) :
    current_path s = none := by
  unfold current_path
  rw [hf]

/-- `current_path` with an empty ordering. -/
theorem current_path_empty {s : AppState} (he : s.files_order = []) :
    current_path s = none := by
  unfold current_path
  rcases hf : s.folder with _ | r
  · rfl
  · dsimp only
    rw [if_pos he]

/-- `current_path` outside the index bounds. -/
theorem current_path_oob {s : AppState}
    (h : ¬(0 ≤ s.index ∧ s.index < (s.files_order.length : Int))) :
    current_path s = none := by
  unfold current_path
  rcases hf : s.folder with _ | r
  · rfl
  · dsimp only
    by_cases he : s.files_order = []
    · rw [if_pos he]
    · rw [if_neg he, if_neg h]

/-- The redisplay loop never touches filesystem, folder, or pending action. -/
theorem show_current_go_pres (pix : String → Bool) :
    ∀ fuel s, (show_current_go pix fuel s).fs = s.fs ∧
      (show_current_go pix fuel s).folder = s.folder ∧
      (show_current_go pix fuel s).last_action = s.last_action := by
  intro fuel
  induction fuel with
  | zero => intro s; exact ⟨rfl, rfl, rfl⟩
  | succ fuel ih =>
    intro s
    simp only [show_current_go]
    rcases hc : current_path s with _ | p
    · split_ifs <;> exact ⟨rfl, rfl, rfl⟩
    · by_cases hp : pix p
      · simp [hp]
      · simp only [hp, Bool.false_eq_true, if_false]
        exact ih _

/-- `show_current` never touches filesystem, folder, or pending action. -/
theorem show_current_pres (pix : String → Bool) (s : AppState) :
    (show_current pix s).fs = s.fs ∧ (show_current pix s).folder = s.folder ∧
      (show_current pix s).last_action = s.last_action :=
  show_current_go_pres pix _ s

/-- When every image is loadable, `show_current` drops nothing. -/
theorem show_current_pix_eq (pix : String → Bool) (hpix : ∀ q, pix q = true)
    (s : AppState) :
    (show_current pix s).files_order = s.files_order ∧
      (show_current pix s).index = s.index := by
  unfold show_current
  simp only [show_current_go]
  rcases hc : current_path s with _ | p
  · split_ifs <;> exact ⟨rfl, rfl⟩
  · simp [hpix p]

/-- The redisplay loop preserves the session invariant. -/
theorem show_current_go_inv (pix : String → Bool) :
    ∀ fuel s, Inv s → Inv (show_current_go pix fuel s) := by
  intro fuel
  induction fuel with
  | zero => intro s h; exact h
  | succ fuel ih =>
    intro s h
    simp only [show_current_go]
    rcases hc : current_path s with _ | p
    · split_ifs <;> exact h
    · rcases current_path_inv hc with ⟨r, _, h0, h1, _⟩
      by_cases hp : pix p
      · simp only [hp, if_true]; exact h
      · simp only [hp, Bool.false_eq_true, if_false]
        apply ih
        unfold Inv
        constructor <;> (dsimp only; split_ifs <;> omega)

/-- `show_current` preserves the session invariant. -/
theorem show_current_inv (pix : String → Bool) (s : AppState) (h : Inv s) :
    Inv (show_current pix s) :=
  show_current_go_inv pix _ s h

/-- `_advance` establishes the invariant outright (the clamps enforce it). -/
theorem advance_inv (pix : String → Bool) (step : Int) (s : AppState) :
    Inv (advance pix step s) := by
  unfold advance
  dsimp only
  apply show_current_inv
  unfold Inv
  split_ifs <;> constructor <;> dsimp only <;> omega

/-- Projection form: `show_current` keeps the ordering when all images load. -/
theorem show_current_files (pix : String → Bool) (hpix : ∀ q, pix q = true)
    (s : AppState) : (show_current pix s).files_order = s.files_order :=
  (show_current_pix_eq pix hpix s).1

/-- Projection form: `show_current` keeps the index when all images load. -/
theorem show_current_index (pix : String → Bool) (hpix : ∀ q, pix q = true)
    (s : AppState) : (show_current pix s).index = s.index :=
  (show_current_pix_eq pix hpix s).2

/-- Projection form: `show_current` never touches the filesystem. -/
theorem show_current_fs (pix : String → Bool) (s : AppState) :
    (show_current pix s).fs = s.fs :=
  (show_current_pres pix s).1

/-- Projection form: `show_current` never touches the folder. -/
theorem show_current_folder (pix : String → Bool) (s : AppState) :
    (show_current pix s).folder = s.folder :=
  (show_current_pres pix s).2.1

/-- Projection form: `show_current` never touches the pending action. -/
theorem show_current_last (pix : String → Bool) (s : AppState) :
    (show_current pix s).last_action = s.last_action :=
  (show_current_pres pix s).2.2

/-- `_advance` keeps the ordering when all images load. -/
theorem advance_files (pix : String → Bool) (hpix : ∀ q, pix q = true)
    (step : Int) (s : AppState) : (advance pix step s).files_order = s.files_order := by
  unfold advance
  dsimp only
  rw [show_current_files pix hpix]
  split_ifs <;> rfl

/-- `_advance` shifts the index by `step` and clamps it into `[0, len]`. -/
theorem advance_index (pix : String → Bool) (hpix : ∀ q, pix q = true)
    (step : Int) (s : AppState) :
    (advance pix step s).index =
      (if (s.files_order.length : Int) ≤ s.index + step then (s.files_order.length : Int)
       else if s.index + step < 0 then 0 else s.index + step) := by
  unfold advance
  dsimp only
  rw [show_current_index pix hpix]
  split_ifs <;> rfl

/-- `_advance` never touches the filesystem. -/
theorem advance_fs (pix : String → Bool) (step : Int) (s : AppState) :
    (advance pix step s).fs = s.fs := by
  unfold advance
  dsimp only
  rw [show_current_fs pix]
  split_ifs <;> rfl

/-- `_advance` never touches the folder. -/
theorem advance_folder (pix : String → Bool) (step : Int) (s : AppState) :
    (advance pix step s).folder = s.folder := by
  unfold advance
  dsimp only
  rw [show_current_folder pix]
  split_ifs <;> rfl

/-- `_advance` never touches the pending action. -/
theorem advance_last (pix : String → Bool) (step : Int) (s : AppState) :
    (advance pix step s).last_action = s.last_action := by
  unfold advance
  dsimp only
  rw [show_current_last pix]
  split_ifs <;> rfl

/-- A successful `request_delete` (move oracle succeeds, source file
present): the current entry leaves `files_order`, the index stays put, a
`delete` action is recorded, and the file moves to the staging name. -/
theorem request_delete_succ (pix : String → Bool) (s : AppState) (r : String)
    (hpix : ∀ q, pix q = true) (hf : s.folder = some r)
    (h0 : 0 ≤ s.index) (h1 : s.index < (s.files_order.length : Int))
    (hsrc : r ++ "/" ++ s.files_order.getD s.index.toNat "" ∈ (commit_pending_delete s).fs) :
    (request_delete pix true s).2 = Outcome.ok ∧
    (request_delete pix true s).1.files_order = s.files_order.eraseIdx s.index.toNat ∧
    (request_delete pix true s).1.index = s.index ∧
    (request_delete pix true s).1.folder = some r ∧
    (request_delete pix true s).1.last_action =
      some (LastAction.delete (s.files_order.getD s.index.toNat "")
        (unique_name (commit_pending_delete s).fs (r ++ "/" ++ BACKUP_DIRNAME)
          (basename (s.files_order.getD s.index.toNat "")))) ∧
    (request_delete pix true s).1.fs =
      unique_name (commit_pending_delete s).fs (r ++ "/" ++ BACKUP_DIRNAME)
          (basename (s.files_order.getD s.index.toNat "")) ::
        (commit_pending_delete s).fs.erase
          (r ++ "/" ++ s.files_order.getD s.index.toNat "") := by
  obtain ⟨ho, hi, hfo, hla⟩ := commit_fields s
  unfold request_delete
  set c := commit_pending_delete s with hc
  dsimp only
  have hcp : current_path c = some (r ++ "/" ++ c.files_order.getD c.index.toNat "") :=
    current_path_eq c r (by rw [hfo, hf]) (by rw [hi]; exact h0)
      (by rw [ho, hi]; exact h1)
  rw [hcp]
  dsimp only
  rw [ho, hi]
  have hgd : c.folder.getD "" = r := by rw [hfo, hf]; rfl
  rw [hgd]
  have hmv : fsMove true c.fs (r ++ "/" ++ s.files_order.getD s.index.toNat "")
      (unique_name c.fs (r ++ "/" ++ BACKUP_DIRNAME)
        (basename (s.files_order.getD s.index.toNat ""))) =
      some (unique_name c.fs (r ++ "/" ++ BACKUP_DIRNAME)
          (basename (s.files_order.getD s.index.toNat "")) ::
        c.fs.erase (r ++ "/" ++ s.files_order.getD s.index.toNat "")) := by
    unfold fsMove
    rw [if_pos ⟨rfl, hsrc⟩]
  rw [hmv]
  dsimp only
  rw [show_current_files pix hpix, show_current_index pix hpix, show_current_fs pix,
    show_current_folder pix, show_current_last pix]
  dsimp only
  refine ⟨rfl, rfl, ?_, ?_, rfl, rfl⟩
  · have hlen : (s.files_order.eraseIdx s.index.toNat).length = s.files_order.length - 1 := by
      rw [List.length_eraseIdx, if_pos (by omega)]
    rw [hlen]
    split_ifs <;> omega
  · rw [hfo, hf]

/-- A failed staging move leaves the ordering, index, and folder exactly
as they were before the `request_delete` call. -/
theorem request_delete_failed (pix : String → Bool) (mok : Bool) (s : AppState)
    (h : (request_delete pix mok s).2 = Outcome.stagingFailed) :
    (request_delete pix mok s).1.files_order = s.files_order ∧
    (request_delete pix mok s).1.index = s.index ∧
    (request_delete pix mok s).1.folder = s.folder := by
  obtain ⟨ho, hi, hfo, hla⟩ := commit_fields s
  unfold request_delete at h ⊢
  set c := commit_pending_delete s with hc
  dsimp only at h ⊢
  rcases hcp : current_path c with _ | p
  · rw [hcp] at h
    dsimp only at h
    exact Outcome.noConfusion h
  · rw [hcp] at h
    dsimp only at h ⊢
    rcases hmv : fsMove mok c.fs p
        (unique_name c.fs (c.folder.getD "" ++ "/" ++ BACKUP_DIRNAME)
          (basename (c.files_order.getD c.index.toNat ""))) with _ | fs2
    · dsimp only
      exact ⟨ho, hi, hfo⟩
    · rw [hmv] at h
      dsimp only at h
      exact Outcome.noConfusion h

/-- The staging move does fail (and is reported) whenever a current entry
exists and the move oracle rejects the move. -/
theorem request_delete_fails_of_oracle (pix : String → Bool) (s : AppState) (r : String)
    (hf : s.folder = some r) (h0 : 0 ≤ s.index)
    (h1 : s.index < (s.files_order.length : Int)) :
    (request_delete pix false s).2 = Outcome.stagingFailed := by
  obtain ⟨ho, hi, hfo, hla⟩ := commit_fields s
  unfold request_delete
  set c := commit_pending_delete s with hc
  dsimp only
  have hcp : current_path c = some (r ++ "/" ++ c.files_order.getD c.index.toNat "") :=
    current_path_eq c r (by rw [hfo, hf]) (by rw [hi]; exact h0)
      (by rw [ho, hi]; exact h1)
  rw [hcp]
  dsimp only
  have hmv : fsMove false c.fs (r ++ "/" ++ c.files_order.getD c.index.toNat "")
      (unique_name c.fs (c.folder.getD "" ++ "/" ++ BACKUP_DIRNAME)
        (basename (c.files_order.getD c.index.toNat ""))) = none := by
    unfold fsMove
    rw [if_neg]
    rintro ⟨h, -⟩
    cases h
  rw [hmv]

/-- A successful `request_keep`: the pending action is committed, a keep
of the prior cursor is recorded, and the cursor advances by one. -/
theorem request_keep_succ (pix : String → Bool) (s : AppState) (r : String)
    (hpix : ∀ q, pix q = true) (hf : s.folder = some r)
    (h0 : 0 ≤ s.index) (h1 : s.index < (s.files_order.length : Int)) :
    (request_keep pix s).2 = Outcome.ok ∧
    (request_keep pix s).1.files_order = s.files_order ∧
    (request_keep pix s).1.index = s.index + 1 ∧
    (request_keep pix s).1.folder = some r ∧
    (request_keep pix s).1.last_action = some (LastAction.keep s.index) ∧
    (request_keep pix s).1.fs = (commit_pending_delete s).fs := by
  obtain ⟨ho, hi, hfo, hla⟩ := commit_fields s
  unfold request_keep
  set c := commit_pending_delete s with hc
  dsimp only
  have hcp : current_path c = some (r ++ "/" ++ c.files_order.getD c.index.toNat "") :=
    current_path_eq c r (by rw [hfo, hf]) (by rw [hi]; exact h0)
      (by rw [ho, hi]; exact h1)
  rw [hcp]
  dsimp only
  rw [advance_files pix hpix, advance_index pix hpix, advance_fs pix,
    advance_folder pix, advance_last pix]
  dsimp only
  rw [ho, hi, hfo, hf]
  refine ⟨rfl, rfl, ?_, rfl, rfl, rfl⟩
  split_ifs <;> omega

/-- Undoing a pending keep: the cursor steps back by one (floored at 0,
regardless of the recorded `prev_index`) and the action is cleared. -/
theorem undo_keep_eq (pix : String → Bool) (mok : Bool) (s : AppState) (pc : Int)
    (hpix : ∀ q, pix q = true)
    (hla : s.last_action = some (LastAction.keep pc)) :
    (undo_last pix mok s).2 = Outcome.ok ∧
    (undo_last pix mok s).1.index = (if 0 < s.index then s.index - 1 else s.index) ∧
    (undo_last pix mok s).1.last_action = none ∧
    (undo_last pix mok s).1.files_order = s.files_order ∧
    (undo_last pix mok s).1.fs = s.fs := by
  unfold undo_last
  rw [hla]
  dsimp only
  rw [show_current_index pix hpix, show_current_last pix, show_current_files pix hpix,
    show_current_fs pix]
  refine ⟨rfl, ?_, ?_, ?_, ?_⟩ <;> split_ifs <;> rfl

/-- A failed restore move: the whole call returns the input state with
only `last_action` cleared, and reports the failure. -/
theorem undo_restore_fail (pix : String → Bool) (s : AppState) (rel bp : String)
    (hla : s.last_action = some (LastAction.delete rel bp))
    (hbp : bp ≠ "") (hmem : bp ∈ s.fs) :
    undo_last pix false s = ({ s with last_action := none }, Outcome.restoreFailed) := by
  unfold undo_last
  rw [hla]
  dsimp only
  rw [if_neg (by push_neg; exact ⟨hbp, hmem⟩)]
  have hmv : ∀ d, fsMove false s.fs bp d = none := by
    intro d
    unfold fsMove
    rw [if_neg]
    rintro ⟨h, -⟩
    cases h
  rw [hmv]

/-- A successful restore of a pending delete with no destination
collision: the relative path is re-inserted at the clamped cursor, the
cursor moves there, and the file returns to its original path. -/
theorem undo_delete_succ (pix : String → Bool) (t : AppState) (r rel bp : String)
    (hpix : ∀ q, pix q = true)
    (hla : t.last_action = some (LastAction.delete rel bp))
    (hf : t.folder = some r) (hbp : bp ≠ "") (hmem : bp ∈ t.fs)
    (hnocol : r ++ "/" ++ rel ∉ t.fs) :
    (undo_last pix true t).2 = Outcome.ok ∧
    (undo_last pix true t).1.files_order =
      t.files_order.insertIdx (max (min t.index (t.files_order.length : Int)) 0).toNat rel ∧
    (undo_last pix true t).1.index =
      max (min t.index (t.files_order.length : Int)) 0 ∧
    (undo_last pix true t).1.fs = (r ++ "/" ++ rel) :: t.fs.erase bp ∧
    (undo_last pix true t).1.last_action = none := by
  unfold undo_last
  rw [hla]
  dsimp only
  rw [if_neg (by push_neg; exact ⟨hbp, hmem⟩)]
  have hgd : t.folder.getD "" = r := by rw [hf]; rfl
  rw [hgd]
  rw [if_neg hnocol]
  have hmv : fsMove true t.fs bp (r ++ "/" ++ rel) =
      some ((r ++ "/" ++ rel) :: t.fs.erase bp) := by
    unfold fsMove
    rw [if_pos ⟨rfl, hmem⟩]
  rw [hmv]
  dsimp only
  rw [stripRoot_cancel]
  rw [show_current_files pix hpix, show_current_index pix hpix, show_current_fs pix,
    show_current_last pix]
  exact ⟨rfl, rfl, rfl, rfl, rfl⟩
/-- Committing the pending action preserves the session invariant. -/
theorem commit_inv (s : AppState) (h : Inv s) : Inv (commit_pending_delete s) := by
  obtain ⟨ho, hi, _, _⟩ := commit_fields s
  unfold Inv at h ⊢
  rw [ho, hi]
  exact h

/-- `request_keep` preserves the session invariant. -/
theorem request_keep_inv (pix : String → Bool) (s : AppState) (h : Inv s) :
    Inv (request_keep pix s).1 := by
  unfold request_keep
  set c := commit_pending_delete s with hc
  dsimp only
  rcases hcp : current_path c with _ | p
  · exact commit_inv s h
  · exact advance_inv pix 1 _

/-- `request_delete` preserves the session invariant. -/
theorem request_delete_inv (pix : String → Bool) (mok : Bool) (s : AppState)
    (h : Inv s) : Inv (request_delete pix mok s).1 := by
  unfold request_delete
  set c := commit_pending_delete s with hc
  dsimp only
  rcases hcp : current_path c with _ | p
  · exact commit_inv s h
  · dsimp only
    rcases current_path_inv hcp with ⟨r, _, h0, h1, _⟩
    rcases hmv : fsMove mok c.fs p
        (unique_name c.fs (c.folder.getD "" ++ "/" ++ BACKUP_DIRNAME)
          (basename (c.files_order.getD c.index.toNat ""))) with _ | fs2
    · exact commit_inv s h
    · dsimp only
      apply show_current_inv
      unfold Inv
      have hlen : (c.files_order.eraseIdx c.index.toNat).length =
          c.files_order.length - 1 := by
        rw [List.length_eraseIdx, if_pos (by omega)]
      constructor <;> (dsimp only; split_ifs <;> omega)

/-- `undo_last` preserves the session invariant. -/
theorem undo_inv (pix : String → Bool) (mok : Bool) (s : AppState) (h : Inv s) :
    Inv (undo_last pix mok s).1 := by
  unfold undo_last
  rcases hla : s.last_action with _ | a
  · exact h
  · cases a with
    | keep pc =>
      dsimp only
      apply show_current_inv
      unfold Inv at h ⊢
      split_ifs <;> (dsimp only; omega)
    | delete rel bp =>
      dsimp only
      by_cases hcheck : bp = "" ∨ bp ∉ s.fs
      · rw [if_pos hcheck]
        exact ⟨h.1, h.2⟩
      · rw [if_neg hcheck]
        generalize (if s.folder.getD "" ++ "/" ++ rel ∈ s.fs then
            unique_name s.fs (parentDir (s.folder.getD "" ++ "/" ++ rel))
              (basename (s.folder.getD "" ++ "/" ++ rel))
          else s.folder.getD "" ++ "/" ++ rel) = d
        rcases hmv : fsMove mok s.fs bp d with _ | fs2
        · dsimp only
          exact ⟨h.1, h.2⟩
        · dsimp only
          apply show_current_inv
          unfold Inv at h ⊢
          dsimp only
          rw [List.length_insertIdx _ _ (by omega)]
          omega

/-- `load_folder` preserves the session invariant. -/
theorem load_folder_inv (pix : String → Bool) (shuffle : List String → List String)
    (f : String) (s : AppState) (h : Inv s) : Inv (load_folder pix shuffle f s) := by
  unfold load_folder
  dsimp only
  split_ifs with hempty
  · exact h
  · apply show_current_inv
    unfold clear_backup_dir
    dsimp only
    unfold Inv
    dsimp only
    omega

/-- The redisplay loop never moves the cursor: an unreadable entry is
popped at the cursor itself, so the post-pop clamp is value-preserving
(`index < len` forces `index ≤ len - 1`). -/
theorem show_current_go_idx (pix : String → Bool) :
    ∀ fuel s, (show_current_go pix fuel s).index = s.index := by
  intro fuel
  induction fuel with
  | zero => intro s; rfl
  | succ fuel ih =>
    intro s
    simp only [show_current_go]
    rcases hc : current_path s with _ | p
    · split_ifs <;> rfl
    · rcases current_path_inv hc with ⟨r, _, h0, h1, _⟩
      by_cases hp : pix p
      · simp [hp]
      · simp only [hp, Bool.false_eq_true, if_false]
        rw [ih]
        dsimp only
        have hlen : (s.files_order.eraseIdx s.index.toNat).length =
            s.files_order.length - 1 := by
          rw [List.length_eraseIdx, if_pos (by omega)]
        split_ifs <;> omega

/-- `show_current` never moves the cursor, for any rendering oracle. -/
theorem show_current_idx (pix : String → Bool) (s : AppState) :
    (show_current pix s).index = s.index :=
  show_current_go_idx pix _ s

/-- `_advance` shifts and clamps the cursor, for any rendering oracle. -/
theorem advance_idx (pix : String → Bool) (step : Int) (s : AppState) :
    (advance pix step s).index =
      (if (s.files_order.length : Int) ≤ s.index + step then (s.files_order.length : Int)
       else if s.index + step < 0 then 0 else s.index + step) := by
  unfold advance
  dsimp only
  rw [show_current_idx pix]
  split_ifs <;> rfl

/-- Undoing a pending keep, for any rendering oracle: the cursor steps
back by one (floored at 0) and the pending record is cleared. -/
theorem undo_keep_idx (pix : String → Bool) (mok : Bool) (s : AppState) (pc : Int)
    (hla : s.last_action = some (LastAction.keep pc)) :
    (undo_last pix mok s).1.index = (if 0 < s.index then s.index - 1 else s.index) ∧
    (undo_last pix mok s).1.last_action = none := by
  unfold undo_last
  rw [hla]
  dsimp only
  rw [show_current_idx pix, show_current_last pix]
  constructor <;> split_ifs <;> rfl

/-- A state with no pending action is vacuously keep-coherent. -/
theorem keepCoherent_vac {s : AppState} (h : s.last_action = none) :
    KeepCoherent s := by
  intro pc hpc
  rw [h] at hpc
  cases hpc

/-- Committing the pending action yields a keep-coherent state. -/
theorem keepCoherent_commit (s : AppState) :
    KeepCoherent (commit_pending_delete s) :=
  keepCoherent_vac (commit_fields s).2.2.2

/-- The redisplay loop preserves keep-coherence (it moves neither the
cursor nor the pending record). -/
theorem keepCoherent_show_current (pix : String → Bool) (s : AppState)
    (h : KeepCoherent s) : KeepCoherent (show_current pix s) := by
  intro pc hpc
  rw [show_current_last pix] at hpc
  rw [show_current_idx pix]
  exact h pc hpc

/-- `request_keep` always leaves a keep-coherent state: either it bails
out with the pending action committed, or it records `prev_index =
cursor` and advances the cursor by exactly one. -/
theorem keepCoherent_request_keep (pix : String → Bool) (s : AppState) :
    KeepCoherent (request_keep pix s).1 := by
  unfold request_keep
  set c := commit_pending_delete s with hc
  dsimp only
  rcases hcp : current_path c with _ | p
  · exact keepCoherent_commit s
  · dsimp only
    intro pc hpc
    rw [advance_last pix] at hpc
    dsimp only at hpc
    injection hpc with h1
    injection h1 with h2
    rcases current_path_inv hcp with ⟨r, _, h0, h1', _⟩
    refine ⟨by omega, ?_⟩
    rw [advance_idx pix]
    dsimp only
    split_ifs <;> omega

/-- `request_delete` always leaves a keep-coherent state (its pending
record, if any, is a delete). -/
theorem keepCoherent_request_delete (pix : String → Bool) (mok : Bool)
    (s : AppState) : KeepCoherent (request_delete pix mok s).1 := by
  unfold request_delete
  set c := commit_pending_delete s with hc
  dsimp only
  rcases hcp : current_path c with _ | p
  · exact keepCoherent_commit s
  · dsimp only
    rcases hmv : fsMove mok c.fs p
        (unique_name c.fs (c.folder.getD "" ++ "/" ++ BACKUP_DIRNAME)
          (basename (c.files_order.getD c.index.toNat ""))) with _ | fs2
    · exact keepCoherent_commit s
    · dsimp only
      intro pc hpc
      rw [show_current_last pix] at hpc
      dsimp only at hpc
      injection hpc with h1
      exact LastAction.noConfusion h1

/-- `undo_last` always leaves a keep-coherent state (it clears the
pending record on every path that had one). -/
theorem keepCoherent_undo (pix : String → Bool) (mok : Bool) (s : AppState) :
    KeepCoherent (undo_last pix mok s).1 := by
  unfold undo_last
  rcases hla : s.last_action with _ | a
  · exact keepCoherent_vac hla
  · cases a with
    | keep pc0 =>
      dsimp only
      intro pc hpc
      rw [show_current_last pix] at hpc
      split_ifs at hpc
    | delete rel bp =>
      dsimp only
      by_cases hcheck : bp = "" ∨ bp ∉ s.fs
      · rw [if_pos hcheck]
        intro pc hpc
        dsimp only at hpc
        cases hpc
      · rw [if_neg hcheck]
        generalize (if s.folder.getD "" ++ "/" ++ rel ∈ s.fs then
            unique_name s.fs (parentDir (s.folder.getD "" ++ "/" ++ rel))
              (basename (s.folder.getD "" ++ "/" ++ rel))
          else s.folder.getD "" ++ "/" ++ rel) = d
        rcases hmv : fsMove mok s.fs bp d with _ | fs2
        · intro pc hpc
          dsimp only at hpc
          cases hpc
        · dsimp only
          intro pc hpc
          rw [show_current_last pix] at hpc
          dsimp only at hpc
          cases hpc

/-- `load_folder` preserves keep-coherence: an empty scan changes only
the root, and a non-empty one clears the pending record. -/
theorem keepCoherent_load (pix : String → Bool) (shuffle : List String → List String)
    (f : String) (s : AppState) (h : KeepCoherent s) :
    KeepCoherent (load_folder pix shuffle f s) := by
  unfold load_folder
  dsimp only
  split_ifs with hempty
  · intro pc hpc
    dsimp only at hpc
    exact h pc hpc
  · intro pc hpc
    rw [show_current_last pix] at hpc
    unfold clear_backup_dir at hpc
    dsimp only at hpc
    cases hpc

example : natStr 12 = "12" := by decide

example : unique_name ["d/a.jpg"] "d" "a.jpg" = "d/a__pswipe_1.jpg" := by decide

example : unique_name ["d/a.jpg", "d/a__pswipe_1.jpg"] "d" "a.jpg" = "d/a__pswipe_2.jpg" := by
  decide

example : unique_name ["d/b.jpg"] "d" "a.jpg" = "d/a.jpg" := by decide

example : (request_delete pixT true stA).2 = Outcome.ok := by decide

example : (request_delete pixT true stA).1.files_order = ["b.jpg", "c.jpg"] := by decide

example : (request_delete pixT false stA).2 = Outcome.stagingFailed := by decide

example :
    (undo_last pixT true (request_delete pixT true stA).1).1.files_order =
      ["a.jpg", "b.jpg", "c.jpg"] := by decide

example : (undo_last pixT true (request_delete pixT true stA).1).1.fs.Perm stA.fs := by
  decide

example : (undo_last pixT false stPD).1.last_action = none := by decide

example : (undo_last pixT true stPK).1.index = 4 := by decide

example : (request_keep pixT stA).1 = stB := by decide

example : scan_images_recursive stA.fs "root" = ["a.jpg", "b.jpg", "c.jpg"] := by decide

/-- C1, counterexample: the claim says a failed restore leaves the pending
action intact so undo can be retried.  On `stPD` (a pending delete whose
staged file exists) a restore failure reports the error but the pending
action has already been cleared — the claim is false on the code. -/
theorem c1_counterexample :
    stPD.last_action ≠ none ∧
    (undo_last pixT false stPD).2 = Outcome.restoreFailed ∧
    (undo_last pixT false stPD).1.last_action = none := by decide

/-- C1, amended: if undo of a pending Delete fails at the filesystem
restore step, `order`, `cursor` and the filesystem are left exactly as
before the call and the error is surfaced, but the pending action has
already been cleared (it is set to None before the restore is attempted),
so the undo cannot be retried. -/
theorem c1_restore_failure_state (pix : String → Bool) (s : AppState) (rel bp : String)
    (hla : s.last_action = some (LastAction.delete rel bp))
    (hbp : bp ≠ "") (hmem : bp ∈ s.fs) :
    undo_last pix false s = ({ s with last_action := none }, Outcome.restoreFailed) :=
  undo_restore_fail pix s rel bp hla hbp hmem

/-- C1, witness: the amended statement at the concrete state `stPD`. -/
theorem c1_witness :
    undo_last pixT false stPD = ({ stPD with last_action := none }, Outcome.restoreFailed) :=
  c1_restore_failure_state pixT stPD "a.jpg" "root/.pswipe_last_backup/a.jpg"
    rfl (by decide) (by decide)

/-- C2: from any state with a loaded folder, a current entry
(`0 ≤ cursor < len(order)`) and a staging move that succeeds, `delete()`
reports success, removes exactly the entry at position `cursor` from
`order` (which shrinks by one), leaves `cursor` unchanged, and sets the
pending action to `Delete{originalRelPath, stagingPath}`. -/
theorem c2_delete_removes_current (pix : String → Bool) (s : AppState) (r : String)
    (hpix : ∀ q, pix q = true) (hf : s.folder = some r)
    (h0 : 0 ≤ s.index) (h1 : s.index < (s.files_order.length : Int))
    (hsrc : r ++ "/" ++ s.files_order.getD s.index.toNat "" ∈ (commit_pending_delete s).fs) :
    (request_delete pix true s).2 = Outcome.ok ∧
    (request_delete pix true s).1.files_order = s.files_order.eraseIdx s.index.toNat ∧
    ((request_delete pix true s).1.files_order.length : Int) + 1 =
      (s.files_order.length : Int) ∧
    (request_delete pix true s).1.index = s.index ∧
    (request_delete pix true s).1.last_action =
      some (LastAction.delete (s.files_order.getD s.index.toNat "")
        (unique_name (commit_pending_delete s).fs (r ++ "/" ++ BACKUP_DIRNAME)
          (basename (s.files_order.getD s.index.toNat "")))) := by
  obtain ⟨o1, o2, o3, o4, o5, o6⟩ := request_delete_succ pix s r hpix hf h0 h1 hsrc
  refine ⟨o1, o2, ?_, o3, o5⟩
  rw [o2]
  have hlen : (s.files_order.eraseIdx s.index.toNat).length = s.files_order.length - 1 := by
    rw [List.length_eraseIdx, if_pos (by omega)]
  omega

/-- C2, witness: the statement at the concrete three-file session `stA`. -/
theorem c2_witness :
    (request_delete pixT true stA).2 = Outcome.ok ∧
    (request_delete pixT true stA).1.files_order =
      stA.files_order.eraseIdx stA.index.toNat ∧
    ((request_delete pixT true stA).1.files_order.length : Int) + 1 =
      (stA.files_order.length : Int) ∧
    (request_delete pixT true stA).1.index = stA.index ∧
    (request_delete pixT true stA).1.last_action =
      some (LastAction.delete (stA.files_order.getD stA.index.toNat "")
        (unique_name (commit_pending_delete stA).fs ("root" ++ "/" ++ BACKUP_DIRNAME)
          (basename (stA.files_order.getD stA.index.toNat "")))) :=
  c2_delete_removes_current pixT stA "root" (fun _ => rfl) rfl (by decide) (by decide)
    (by decide)

/-- C3: whenever the staging move step of `delete()` is reached and
fails, the failure is reported (`stagingFailed` surfaces the error), and
for every reported staging failure the in-memory `order` and `cursor` are
exactly as before the call — no entry is removed. -/
theorem c3_staging_failure_atomic (pix : String → Bool) (s : AppState) (r : String)
    (hf : s.folder = some r) (h0 : 0 ≤ s.index)
    (h1 : s.index < (s.files_order.length : Int)) :
    (request_delete pix false s).2 = Outcome.stagingFailed ∧
    (∀ mok, (request_delete pix mok s).2 = Outcome.stagingFailed →
      (request_delete pix mok s).1.files_order = s.files_order ∧
      (request_delete pix mok s).1.index = s.index) := by
  refine ⟨request_delete_fails_of_oracle pix s r hf h0 h1, fun mok h => ?_⟩
  exact ⟨(request_delete_failed pix mok s h).1, (request_delete_failed pix mok s h).2.1⟩

/-- C3, witness: the statement at the concrete three-file session `stA`. -/
theorem c3_witness :
    (request_delete pixT false stA).2 = Outcome.stagingFailed ∧
    (∀ mok, (request_delete pixT mok stA).2 = Outcome.stagingFailed →
      (request_delete pixT mok stA).1.files_order = stA.files_order ∧
      (request_delete pixT mok stA).1.index = stA.index) :=
  c3_staging_failure_atomic pixT stA "root" rfl (by decide) (by decide)

/-- C4: a successful `delete()` immediately followed by a successful
`undo()` restores the file to its original root-joined relative path and
returns `order` and `cursor` to exactly their pre-delete values.  The
"no collision at the destination" proviso is established rather than
assumed: the vacated source path cannot be occupied, since the staging
name is fresh and the filesystem listing has no duplicates. -/
theorem c4_round_trip (pix : String → Bool) (s : AppState) (r : String)
    (hpix : ∀ q, pix q = true) (hf : s.folder = some r) (hnd : s.fs.Nodup)
    (h0 : 0 ≤ s.index) (h1 : s.index < (s.files_order.length : Int))
    (hsrc : r ++ "/" ++ s.files_order.getD s.index.toNat "" ∈ (commit_pending_delete s).fs) :
    (request_delete pix true s).2 = Outcome.ok ∧
    (undo_last pix true (request_delete pix true s).1).2 = Outcome.ok ∧
    (undo_last pix true (request_delete pix true s).1).1.files_order = s.files_order ∧
    (undo_last pix true (request_delete pix true s).1).1.index = s.index ∧
    r ++ "/" ++ s.files_order.getD s.index.toNat "" ∈
      (undo_last pix true (request_delete pix true s).1).1.fs := by
  obtain ⟨d1, d2, d3, d4, d5, d6⟩ := request_delete_succ pix s r hpix hf h0 h1 hsrc
  set t := (request_delete pix true s).1 with ht
  set rel := s.files_order.getD s.index.toNat "" with hrel
  set bt := unique_name (commit_pending_delete s).fs (r ++ "/" ++ BACKUP_DIRNAME)
    (basename rel) with hbt
  have hbp : bt ≠ "" := unique_name_ne_empty _ _ _
  have hmem : bt ∈ t.fs := by rw [d6]; exact List.mem_cons_self _ _
  have hfree : bt ∉ (commit_pending_delete s).fs := unique_name_not_mem _ _ _
  have hcnd : (commit_pending_delete s).fs.Nodup := commit_nodup s hnd
  have hnocol : r ++ "/" ++ rel ∉ t.fs := by
    rw [d6]
    intro hmemcol
    rcases List.mem_cons.mp hmemcol with hcol | hcol
    · exact hfree (hcol ▸ hsrc)
    · exact (hcnd.mem_erase_iff.mp hcol).1 rfl
  obtain ⟨u1, u2, u3, u4, u5⟩ := undo_delete_succ pix t r rel bt hpix d5 d4 hbp hmem hnocol
  have hlen : (t.files_order.length : Int) = (s.files_order.length : Int) - 1 := by
    rw [d2]
    have he : (s.files_order.eraseIdx s.index.toNat).length =
        s.files_order.length - 1 := by
      rw [List.length_eraseIdx, if_pos (by omega)]
    omega
  have hmax : max (min t.index (t.files_order.length : Int)) 0 = s.index := by
    rw [d3]
    omega
  refine ⟨d1, u1, ?_, ?_, ?_⟩
  · rw [u2, hmax, d2, hrel]
    exact insertIdx_eraseIdx_getD s.files_order s.index.toNat "" (by omega)
  · rw [u3, hmax]
  · rw [u4]
    exact List.mem_cons_self _ _

/-- C4, witness: the round trip at the concrete three-file session `stA`. -/
theorem c4_witness :
    (request_delete pixT true stA).2 = Outcome.ok ∧
    (undo_last pixT true (request_delete pixT true stA).1).2 = Outcome.ok ∧
    (undo_last pixT true (request_delete pixT true stA).1).1.files_order =
      stA.files_order ∧
    (undo_last pixT true (request_delete pixT true stA).1).1.index = stA.index ∧
    "root" ++ "/" ++ stA.files_order.getD stA.index.toNat "" ∈
      (undo_last pixT true (request_delete pixT true stA).1).1.fs :=
  c4_round_trip pixT stA "root" (fun _ => rfl) rfl (by decide) (by decide) (by decide)
    (by decide)

/-- C5: a `keep()` over a pending Delete first commits it — the staged
backup file is permanently discarded — before recording its own action,
and after `keep(); keep()` the pending action is exactly the second
keep's record (with the second call's prior cursor), so only the second
keep is undoable. -/
theorem c5_at_most_one_pending (pix : String → Bool) (s : AppState) (r rel bp : String)
    (hpix : ∀ q, pix q = true) (hf : s.folder = some r) (hnd : s.fs.Nodup)
    (hla : s.last_action = some (LastAction.delete rel bp)) (hbp : bp ≠ "")
    (h0 : 0 ≤ s.index) (h1 : s.index + 1 < (s.files_order.length : Int)) :
    bp ∉ (request_keep pix s).1.fs ∧
    (request_keep pix s).1.last_action = some (LastAction.keep s.index) ∧
    (request_keep pix (request_keep pix s).1).1.last_action =
      some (LastAction.keep (s.index + 1)) := by
  obtain ⟨k1, k2, k3, k4, k5, k6⟩ := request_keep_succ pix s r hpix hf h0 (by omega)
  refine ⟨?_, k5, ?_⟩
  · rw [k6, commit_fs_of_delete s rel bp hla hbp]
    exact fun hmem => ((hnd.mem_erase_iff).mp hmem).1 rfl
  · obtain ⟨k1', k2', k3', k4', k5', k6'⟩ := request_keep_succ pix (request_keep pix s).1 r
      hpix k4 (by rw [k3]; omega) (by rw [k3, k2]; omega)
    rw [k5', k3]

/-- C5, witness: the statement at `stPD`, whose pending delete's staged
file `root/.pswipe_last_backup/a.jpg` is discarded by the first keep. -/
theorem c5_witness :
    "root/.pswipe_last_backup/a.jpg" ∉ (request_keep pixT stPD).1.fs ∧
    (request_keep pixT stPD).1.last_action = some (LastAction.keep stPD.index) ∧
    (request_keep pixT (request_keep pixT stPD).1).1.last_action =
      some (LastAction.keep (stPD.index + 1)) :=
  c5_at_most_one_pending pixT stPD "root" "a.jpg" "root/.pswipe_last_backup/a.jpg"
    (fun _ => rfl) rfl (by decide) rfl (by decide) (by decide) (by decide)

/-- C6: the invariant `0 ≤ cursor ≤ len(order)` is preserved by every
operation — start (`load_folder`), keep, delete, undo, and the
unreadable-entry drop performed by `show_current`. -/
theorem c6_invariant_preserved (pix : String → Bool)
    (shuffle : List String → List String) (mok : Bool) (f : String) (s : AppState)
    (h : Inv s) :
    Inv (load_folder pix shuffle f s) ∧ Inv (request_keep pix s).1 ∧
    Inv (request_delete pix mok s).1 ∧ Inv (undo_last pix mok s).1 ∧
    Inv (show_current pix s) :=
  ⟨load_folder_inv pix shuffle f s h, request_keep_inv pix s h,
   request_delete_inv pix mok s h, undo_inv pix mok s h, show_current_inv pix s h⟩

/-- C6, witness: invariant preservation at the concrete session `stA`. -/
theorem c6_witness :
    Inv (load_folder pixT id "root" stA) ∧ Inv (request_keep pixT stA).1 ∧
    Inv (request_delete pixT true stA).1 ∧ Inv (undo_last pixT true stA).1 ∧
    Inv (show_current pixT stA) :=
  c6_invariant_preserved pixT id true "root" stA ⟨by decide, by decide⟩

/-- C7: undo() of a pending Keep sets the cursor to the Keep action's
`priorCursor` — i.e. moves it back by exactly one position, never below
0 — and clears the pending action.  The first part proves this on every
`KeepCoherent` state (a pending `Keep{priorCursor}` has
`cursor = priorCursor + 1` with `priorCursor ≥ 0`); the second part
shows `KeepCoherent` is established and preserved by every operation —
`request_keep` records `prev_index = cursor` and advances by exactly
one, no other operation moves the cursor while a Keep stays pending, and
the unreadable-entry drop never moves the cursor — so it holds in every
reachable state. -/
theorem c7_undo_keep_sets_prior (pix : String → Bool)
    (shuffle : List String → List String) (mok : Bool) (f : String) (s : AppState) :
    (∀ pc, KeepCoherent s → s.last_action = some (LastAction.keep pc) →
      (undo_last pix mok s).1.index = pc ∧
      (undo_last pix mok s).1.index = s.index - 1 ∧
      0 ≤ (undo_last pix mok s).1.index ∧
      (undo_last pix mok s).1.last_action = none) ∧
    (KeepCoherent s →
      KeepCoherent (commit_pending_delete s) ∧
      KeepCoherent (load_folder pix shuffle f s) ∧
      KeepCoherent (request_keep pix s).1 ∧
      KeepCoherent (request_delete pix mok s).1 ∧
      KeepCoherent (undo_last pix mok s).1 ∧
      KeepCoherent (show_current pix s)) := by
  constructor
  · intro pc hco hla
    obtain ⟨hp0, hpi⟩ := hco pc hla
    obtain ⟨u1, u2⟩ := undo_keep_idx pix mok s pc hla
    refine ⟨?_, ?_, ?_, u2⟩ <;> (rw [u1]; split_ifs <;> omega)
  · intro hco
    exact ⟨keepCoherent_commit s, keepCoherent_load pix shuffle f s hco,
      keepCoherent_request_keep pix s, keepCoherent_request_delete pix mok s,
      keepCoherent_undo pix mok s, keepCoherent_show_current pix s hco⟩

/-- C7, witness: undo at `stB`, the (reachable) state produced by one
`keep()` from the three-file session `stA`: the cursor returns to the
recorded prior cursor 0. -/
theorem c7_witness :
    (undo_last pixT true stB).1.index = 0 ∧
    (undo_last pixT true stB).1.index = stB.index - 1 ∧
    0 ≤ (undo_last pixT true stB).1.index ∧
    (undo_last pixT true stB).1.last_action = none :=
  (c7_undo_keep_sets_prior pixT id true "root" stB).1 0
    (by
      intro pc hpc
      have h : some (LastAction.keep 0) = some (LastAction.keep pc) := hpc
      injection h with h1
      injection h1 with h2
      exact ⟨by omega, by rw [← h2]; decide⟩)
    rfl

/-- C8, counterexample: the claim says collisions are resolved with a
suffix of the form `name__n.ext`.  With `a.jpg` already staged, the first
spec-form candidate `a__1.jpg` is free, yet the code chooses
`a__pswipe_1.jpg` — the suffix carries a `pswipe` marker. -/
theorem c8_counterexample :
    unique_name ["d/a.jpg"] "d" "a.jpg" = "d/a__pswipe_1.jpg" ∧
    specCandName "d" "a" ".jpg" 1 = "d/a__1.jpg" ∧
    specCandName "d" "a" ".jpg" 1 ∉ ["d/a.jpg"] ∧
    unique_name ["d/a.jpg"] "d" "a.jpg" ≠ specCandName "d" "a" ".jpg" 1 := by decide

/-- C8, amended: on a base-name collision the chosen name appends a
disambiguating suffix of the form `name__pswipe_n.ext`, trying increasing
`n` starting from 1, until a name not present in the directory is found
(the returned name is the least free candidate). -/
theorem c8_collision_suffix (fs : List String) (dir base : String)
    (hcol : dir ++ "/" ++ base ∈ fs) :
    ∃ n, 1 ≤ n ∧
      unique_name fs dir base = candName dir (splitext base).1 (splitext base).2 n ∧
      candName dir (splitext base).1 (splitext base).2 n ∉ fs ∧
      (∀ m, 1 ≤ m → m < n → candName dir (splitext base).1 (splitext base).2 m ∈ fs) :=
  unique_name_collision_eq fs dir base hcol

/-- C8, witness: the amended statement at a one-file staging directory. -/
theorem c8_witness :
    ∃ n, 1 ≤ n ∧
      unique_name ["d/a.jpg"] "d" "a.jpg" =
        candName "d" (splitext "a.jpg").1 (splitext "a.jpg").2 n ∧
      candName "d" (splitext "a.jpg").1 (splitext "a.jpg").2 n ∉ ["d/a.jpg"] ∧
      (∀ m, 1 ≤ m → m < n →
        candName "d" (splitext "a.jpg").1 (splitext "a.jpg").2 m ∈ ["d/a.jpg"]) :=
  c8_collision_suffix ["d/a.jpg"] "d" "a.jpg" (by decide)

/-- C9: opening a folder whose scan yields no eligible images updates
only the session root; `order`, `cursor`, the pending action, the dialog
flag and the filesystem are all left as they were — the old ordering
stays active. -/
theorem c9_empty_scan_keeps_session (pix : String → Bool)
    (shuffle : List String → List String) (f : String) (s : AppState)
    (hempty : scan_images_recursive s.fs f = []) :
    load_folder pix shuffle f s = { s with folder := some f } := by
  unfold load_folder
  dsimp only
  rw [if_pos hempty]

/-- C9, witness: loading a folder with no eligible images over the live
session `stPK` (order of six entries, cursor 5, pending keep) changes
only the root. -/
theorem c9_witness :
    load_folder pixT id "other" stPK = { stPK with folder := some "other" } :=
  c9_empty_scan_keeps_session pixT id "other" stPK (by decide)

/-- C10: `current_path` is total — it returns `none` when no folder is
loaded, when the order is empty, or when the cursor is out of range
(including `cursor = len`, the end-of-list state), and it returns the
root-joined entry `order[cursor]` exactly when a folder is loaded and
`0 ≤ cursor < len(order)`. -/
theorem c10_current_path_total (s : AppState) :
    (s.folder = none → current_path s = none) ∧
    (s.files_order = [] → current_path s = none) ∧
    (¬(0 ≤ s.index ∧ s.index < (s.files_order.length : Int)) →
      current_path s = none) ∧
    (∀ r, s.folder = some r → 0 ≤ s.index → s.index < (s.files_order.length : Int) →
      current_path s = some (r ++ "/" ++ s.files_order.getD s.index.toNat "")) ∧
    (∀ p, current_path s = some p →
      ∃ r, s.folder = some r ∧ 0 ≤ s.index ∧ s.index < (s.files_order.length : Int) ∧
        p = r ++ "/" ++ s.files_order.getD s.index.toNat "") :=
  ⟨fun hf => current_path_no_folder hf, fun he => current_path_empty he,
   fun hb => current_path_oob hb,
   fun r hf h0 h1 => current_path_eq s r hf h0 h1,
   fun _ hp => current_path_inv hp⟩

/-- C10, witness: the characterization applied at a loaded session and at
the no-folder state. -/
theorem c10_witness :
    current_path stA = some ("root" ++ "/" ++ stA.files_order.getD stA.index.toNat "") ∧
    current_path stNone = none :=
  ⟨(c10_current_path_total stA).2.2.2.1 "root" rfl (by decide) (by decide),
   (c10_current_path_total stNone).1 rfl⟩

end PSC
